import Mathlib

/-!
Verification of the two-branch car-rental policy-iteration program (`src/main.py`).

The program is embedded shallowly:

* Python `int` becomes `ℤ` (unbounded), loop counters become `ℕ`.
* Float arithmetic is idealized as exact arithmetic in a linear ordered field
  `α`; the claim theorems instantiate `α := ℝ`.  The single irrational
  constant `math.exp(-RENT_RATE)` is threaded through as a parameter
  `expNeg : α`, instantiated with `Real.exp (-RENT_RATE)` in the theorems,
  which keeps the definitions computable (they can be executed at `α := ℚ`).
* The `NotEnoughCarsException` control flow becomes `Option`: `none` is the
  raised exception.
* Python dictionaries become functions `State → Option _` (a `none` lookup is
  a `KeyError`), and the mutation performed by the sweeps of `main` becomes
  explicit state passing with `Function.update`.
* Object mutation for the frame condition of `estimate_action_value` is
  modelled once more, explicitly, with a small heap of `RentalBranch` objects
  addressed by `ℕ` references (`copy.copy` allocates a fresh cell).
-/

/-- Constant `BAD_MOVE_COST = -1000` from `src/main.py`. -/
def BAD_MOVE_COST {α : Type} [LinearOrderedField α] : α := -1000

/-- Constant `RENT_RATE = 5` from `src/main.py`. -/
def RENT_RATE : ℕ := 5

/-- Constant `DISCOUNT_RATE = 0.9` from `src/main.py`. -/
def DISCOUNT_RATE {α : Type} [LinearOrderedField α] : α := 9 / 10

/-- Constant `RENTAL_INCOME = 10` from `src/main.py`. -/
def RENTAL_INCOME {α : Type} [LinearOrderedField α] : α := 10

/-- Constant `TRANSFER_COST = 2` from `src/main.py`. -/
def TRANSFER_COST {α : Type} [LinearOrderedField α] : α := 2

/-- Class `RentalBranch` of `src/main.py`: fields `max_capacity`, `available`,
`queued` (Python ints). -/
structure RentalBranch where
  max_capacity : ℤ
  available : ℤ
  queued : ℤ
deriving DecidableEq

/-- Method `RentalBranch.transfer_cars`.  `none` models the raised
`NotEnoughCarsException`; `some b` is the updated object. -/
def transfer_cars (b : RentalBranch) (car_transfers : ℤ) : Option RentalBranch :=
  if car_transfers < 0 then
    if b.available + car_transfers < 0 then
      none
    else
      some { b with available := b.available + car_transfers }
  else
    some { b with available :=
      b.available + min car_transfers (b.max_capacity - b.available - b.queued) }

/-- Class `State` of `src/main.py`: a pair of branches, with structural
equality (the Python class defines `__eq__`/`__hash__` field-wise). -/
structure State where
  branchA : RentalBranch
  branchB : RentalBranch
deriving DecidableEq

/-- Class `Policy` of `src/main.py`: `max_capacity` plus the sparse dict
`stateToActionMap`, modelled as a function to `Option ℤ` (`none` = key
absent). -/
structure Policy where
  max_capacity : ℕ
  stateToActionMap : State → Option ℤ

/-- Constructor `Policy(max_capacity)`: the dict starts empty. -/
def Policy.emptyPolicy (max_capacity : ℕ) : Policy :=
  ⟨max_capacity, fun _ => none⟩

/-- Method `Policy.__getitem__`: `self.stateToActionMap.get(key, 0)`. -/
def Policy.getItem (p : Policy) (key : State) : ℤ :=
  (p.stateToActionMap key).getD 0

/-- Method `Policy.__setitem__`: `self.stateToActionMap[key] = value`. -/
def Policy.setItem (p : Policy) (key : State) (value : ℤ) : Policy :=
  { p with stateToActionMap := Function.update p.stateToActionMap key (some value) }

/-- Function `state_iter` of `src/main.py`, as the list of yielded states in
order. -/
def state_iter (max_capacity : ℕ) : List State :=
  (List.range (max_capacity + 1)).flatMap (fun totalA =>
    (List.range (totalA + 1)).flatMap (fun (queuedA : ℕ) =>
      let branchA : RentalBranch :=
        ⟨(max_capacity : ℤ), (totalA : ℤ) - (queuedA : ℤ), (queuedA : ℤ)⟩
      (List.range (max_capacity + 1)).flatMap (fun totalB =>
        (List.range (totalB + 1)).map (fun (queuedB : ℕ) =>
          State.mk branchA
            ⟨(max_capacity : ℤ), (totalB : ℤ) - (queuedB : ℤ), (queuedB : ℤ)⟩))))

/-- Key set of `ValueMap.random_initialization` of `src/main.py`: the same
four nested loops as `state_iter` fill the dict with `random.uniform(0, 10)`
values.  The loop structure is embedded as the list of keys written; the random
values themselves are abstracted in the theorems as an arbitrary function whose
values lie in `[0, 10]`. -/
def random_init_keys (max_capacity : ℕ) : List State :=
  (List.range (max_capacity + 1)).flatMap (fun totalA =>
    (List.range (totalA + 1)).flatMap (fun (qA : ℕ) =>
      let branchA : RentalBranch :=
        ⟨(max_capacity : ℤ), (totalA : ℤ) - (qA : ℤ), (qA : ℤ)⟩
      (List.range (max_capacity + 1)).flatMap (fun totalB =>
        (List.range (totalB + 1)).map (fun (qB : ℕ) =>
          State.mk branchA
            ⟨(max_capacity : ℤ), (totalB : ℤ) - (qB : ℤ), (qB : ℤ)⟩))))

/-- Function `action_iter` of `src/main.py`:
`range(-state.branchB.available, state.branchA.available + 1)` as a list. -/
def action_iter (state : State) : List ℤ :=
  (List.range (state.branchA.available + state.branchB.available + 1).toNat).map
    (fun (k : ℕ) => -state.branchB.available + (k : ℤ))

/-- Function `rental_probabilities` of `src/main.py`.  A negative `available`
gives the empty Python `range`, hence `List.range available.toNat`. -/
def rental_probabilities {α : Type} [LinearOrderedField α]
    (expNeg : α) (available : ℤ) : List α :=
  let rent_prob := (List.range available.toNat).map
    (fun n => (RENT_RATE : α) ^ n / (Nat.factorial n : α) * expNeg)
  rent_prob ++ [1 - rent_prob.sum]

/-- The double `for (cust, prob) in enumerate(...)` loop of
`estimate_action_value` (`src/main.py` lines 178–182), applied to the two
post-transfer branches: the probability-weighted sum of rental income plus
discounted next-state value. -/
def expectation {α : Type} [LinearOrderedField α] (expNeg : α)
    (branchA branchB : RentalBranch) (value_map : State → α) : α :=
  ((rental_probabilities expNeg branchA.available).enum.map (fun pA =>
    let newBranchA : RentalBranch :=
      ⟨branchA.max_capacity, branchA.available - (pA.1 : ℤ) + branchA.queued, (pA.1 : ℤ)⟩
    ((rental_probabilities expNeg branchB.available).enum.map (fun pB =>
      let newBranchB : RentalBranch :=
        ⟨branchB.max_capacity, branchB.available - (pB.1 : ℤ) + branchB.queued, (pB.1 : ℤ)⟩
      pA.2 * pB.2 * (((pA.1 + pB.1 : ℕ) : α) * RENTAL_INCOME
        + DISCOUNT_RATE * value_map (State.mk newBranchA newBranchB)))).sum)).sum

/-- Function `estimate_action_value` of `src/main.py`.  The two
`transfer_cars` calls act on copies of the branches; if either raises, the
function returns `BAD_MOVE_COST`, otherwise the transfer cost plus the
expectation loop value. -/
def estimate_action_value {α : Type} [LinearOrderedField α] (expNeg : α)
    (state : State) (action : ℤ) (value_map : State → α) : α :=
  match transfer_cars state.branchA (-action), transfer_cars state.branchB action with
  | some branchA, some branchB =>
      -TRANSFER_COST * (action.natAbs : α) + expectation expNeg branchA branchB value_map
  | _, _ => BAD_MOVE_COST

/-- Function `estimate_state_value` of `src/main.py`:
`estimate_action_value(state, policy[state], value_map)`. -/
def estimate_state_value {α : Type} [LinearOrderedField α] (expNeg : α)
    (state : State) (value_map : State → α) (policy : Policy) : α :=
  estimate_action_value expNeg state (policy.getItem state) value_map

/-- Python `max(actionVals, key=lambda e: e[1])` on the non-empty list
`x :: xs`: scan left to right, replacing the current best only on a strictly
greater key, so the first maximal element wins. -/
def pymax1 {α : Type} [LinearOrderedField α] (x : ℤ × α) (xs : List (ℤ × α)) : ℤ × α :=
  xs.foldl (fun best e => if best.2 < e.2 then e else best) x

/-- The `best = max(actionVals, ...)` computation of the improvement sweep
(`src/main.py` lines 236–237); `none` models the `ValueError` Python `max`
raises on an empty sequence. -/
def best_action {α : Type} [LinearOrderedField α] (expNeg : α)
    (state : State) (value_map : State → α) : Option (ℤ × α) :=
  match (action_iter state).map (fun a => (a, estimate_action_value expNeg state a value_map)) with
  | [] => none
  | x :: xs => some (pymax1 x xs)

/-- Body of the improvement sweep of `main` (`src/main.py` lines 235–240) for
one state: compare the best action with the stored one and write only on a
difference, raising the `policy_changed` flag. -/
def improve_step {α : Type} [LinearOrderedField α] (expNeg : α)
    (value_map : State → α) :
    Option (Policy × Bool) → State → Option (Policy × Bool)
  | none, _ => none
  | some (policy, changed), state =>
    match best_action expNeg state value_map with
    | none => none
    | some best =>
      if policy.getItem state ≠ best.1 then
        some (policy.setItem state best.1, true)
      else
        some (policy, changed)

/-- One full improvement sweep of `main`: fold the per-state body over
`state_iter`, starting from `policy_changed = False`. -/
def improvement_sweep {α : Type} [LinearOrderedField α] (expNeg : α)
    (max_capacity : ℕ) (value_map : State → α) (policy : Policy) :
    Option (Policy × Bool) :=
  (state_iter max_capacity).foldl (improve_step expNeg value_map)
    (some (policy, false))

/-- One full evaluation sweep of `main` (`src/main.py` lines 224–229): update
every state's value in place and track the maximum absolute change. -/
def eval_sweep {α : Type} [LinearOrderedField α] (expNeg : α)
    (max_capacity : ℕ) (policy : Policy) (value_map : State → α) :
    (State → α) × α :=
  (state_iter max_capacity).foldl (fun acc state =>
    let old_value := acc.1 state
    let new_value := estimate_state_value expNeg state acc.1 policy
    (Function.update acc.1 state new_value, max acc.2 |new_value - old_value|))
    (value_map, 0)

/-- Invariant on a branch assumed by the claims: non-negative counts within
capacity. -/
def BranchInv (b : RentalBranch) : Prop :=
  0 ≤ b.available ∧ 0 ≤ b.queued ∧ b.available + b.queued ≤ b.max_capacity

instance (b : RentalBranch) : Decidable (BranchInv b) := by
  unfold BranchInv; infer_instance

section TransferLemmas

/-- Helper: on the removing side, `transfer_cars` fails exactly on underflow
and otherwise just shifts `available`. -/
lemma transfer_cars_neg (b : RentalBranch) (d : ℤ) (hd : d < 0) :
    transfer_cars b d =
      if b.available + d < 0 then none
      else some ⟨b.max_capacity, b.available + d, b.queued⟩ := by
  unfold transfer_cars
  rw [if_pos hd]

/-- Helper: on the adding side, `transfer_cars` always succeeds with a
clamped add. -/
lemma transfer_cars_nonneg (b : RentalBranch) (d : ℤ) (hd : 0 ≤ d) :
    transfer_cars b d =
      some ⟨b.max_capacity,
        b.available + min d (b.max_capacity - b.available - b.queued), b.queued⟩ := by
  unfold transfer_cars
  rw [if_neg (not_lt.mpr hd)]

/-- Helper: a successful transfer keeps `max_capacity` and `queued` and
preserves the branch invariant. -/
lemma transfer_cars_some_inv {b b' : RentalBranch} {d : ℤ}
    (hinv : BranchInv b) (h : transfer_cars b d = some b') :
    b'.max_capacity = b.max_capacity ∧ b'.queued = b.queued ∧
      0 ≤ b'.available ∧ b'.available + b'.queued ≤ b'.max_capacity := by
  obtain ⟨h1, h2, h3⟩ := hinv
  unfold transfer_cars at h
  by_cases hd : d < 0
  · rw [if_pos hd] at h
    by_cases hu : b.available + d < 0
    · rw [if_pos hu] at h
      exact absurd h (by simp)
    · rw [if_neg hu] at h
      obtain rfl := Option.some_injective _ h |>.symm
      refine ⟨rfl, rfl, ?_, ?_⟩ <;> simp <;> omega
  · rw [if_neg hd] at h
    obtain rfl := Option.some_injective _ h |>.symm
    refine ⟨rfl, rfl, ?_, ?_⟩ <;> simp <;> omega

/-- Helper: with the invariant, the transfer pair of `estimate_action_value`
succeeds exactly on the legal action range `[-available(B), available(A)]`. -/
lemma transfer_pair_succeeds {s : State} {a : ℤ}
    (hA : BranchInv s.branchA) (hB : BranchInv s.branchB) :
    (∃ bA bB, transfer_cars s.branchA (-a) = some bA ∧
        transfer_cars s.branchB a = some bB) ↔
      (-s.branchB.available ≤ a ∧ a ≤ s.branchA.available) := by
  obtain ⟨hA1, hA2, hA3⟩ := hA
  obtain ⟨hB1, hB2, hB3⟩ := hB
  constructor
  · rintro ⟨bA, bB, hbA, hbB⟩
    constructor
    · by_cases ha : a < 0
      · rw [transfer_cars_neg _ _ ha] at hbB
        by_cases hu : s.branchB.available + a < 0
        · rw [if_pos hu] at hbB; exact absurd hbB (by simp)
        · omega
      · omega
    · by_cases ha : 0 < a
      · rw [transfer_cars_neg _ _ (by omega : -a < 0)] at hbA
        by_cases hu : s.branchA.available + -a < 0
        · rw [if_pos hu] at hbA; exact absurd hbA (by simp)
        · omega
      · omega
  · rintro ⟨hlo, hhi⟩
    rcases lt_trichotomy a 0 with ha | ha | ha
    · rw [transfer_cars_nonneg _ _ (by omega : (0:ℤ) ≤ -a),
        transfer_cars_neg _ _ ha, if_neg (by omega)]
      exact ⟨_, _, rfl, rfl⟩
    · subst ha
      rw [transfer_cars_nonneg _ _ (by omega), transfer_cars_nonneg _ _ le_rfl]
      exact ⟨_, _, rfl, rfl⟩
    · rw [transfer_cars_neg _ _ (by omega : -a < 0), if_neg (by omega),
        transfer_cars_nonneg _ _ (by omega : (0:ℤ) ≤ a)]
      exact ⟨_, _, rfl, rfl⟩

end TransferLemmas

/-- C3: for every branch satisfying `0 ≤ available`, `0 ≤ queued` and
`available + queued ≤ capacity`, `transfer_cars delta` either raises
`NotEnoughCarsException` (returns `none`, the caller's branch untouched in the
pure embedding), or returns a branch again satisfying `0 ≤ available` and
`available + queued ≤ capacity`. -/
theorem claim_C3_transfer_preserves_invariant (b : RentalBranch) (delta : ℤ)
    (hinv : BranchInv b) :
    transfer_cars b delta = none ∨
      ∃ b', transfer_cars b delta = some b' ∧
        0 ≤ b'.available ∧ b'.available + b'.queued ≤ b'.max_capacity := by
  cases h : transfer_cars b delta with
  | none => exact Or.inl rfl
  | some b' =>
    obtain ⟨_, _, h3, h4⟩ := transfer_cars_some_inv hinv h
    exact Or.inr ⟨b', rfl, h3, h4⟩

/-- Witness for C3 at the concrete branch `(5, 2, 1)` and `delta = 7`. -/
theorem claim_C3_transfer_preserves_invariant_witness :
    transfer_cars ⟨5, 2, 1⟩ 7 = none ∨
      ∃ b', transfer_cars ⟨5, 2, 1⟩ 7 = some b' ∧
        0 ≤ b'.available ∧ b'.available + b'.queued ≤ b'.max_capacity :=
  claim_C3_transfer_preserves_invariant ⟨5, 2, 1⟩ 7 (by decide)

/-- C4: full functional description of `transfer_cars`: on `delta < 0` it
fails exactly when `available + delta < 0` and otherwise adds `delta` with no
capacity check; on `delta ≥ 0` it never fails and clamps the add at the free
capacity; `max_capacity` and `queued` are never modified. -/
theorem claim_C4_transfer_behaviour (b : RentalBranch) (delta : ℤ) :
    (delta < 0 →
      (b.available + delta < 0 → transfer_cars b delta = none) ∧
      (0 ≤ b.available + delta →
        transfer_cars b delta = some ⟨b.max_capacity, b.available + delta, b.queued⟩)) ∧
    (0 ≤ delta →
      transfer_cars b delta =
        some ⟨b.max_capacity,
          b.available + min delta (b.max_capacity - b.available - b.queued),
          b.queued⟩) := by
  refine ⟨fun hd => ⟨fun hu => ?_, fun hu => ?_⟩, fun hd => ?_⟩
  · rw [transfer_cars_neg _ _ hd, if_pos hu]
  · rw [transfer_cars_neg _ _ hd, if_neg (by omega)]
  · exact transfer_cars_nonneg _ _ hd

/-- Witness for C4 at concrete branches: a clamped add and an exact removal. -/
theorem claim_C4_transfer_behaviour_witness :
    transfer_cars ⟨5, 2, 1⟩ 99 = some ⟨5, 4, 1⟩ ∧
      transfer_cars ⟨5, 2, 1⟩ (-2) = some ⟨5, 0, 1⟩ ∧
      transfer_cars ⟨5, 2, 1⟩ (-3) = none := by
  refine ⟨?_, ?_, ?_⟩
  · have h := (claim_C4_transfer_behaviour ⟨5, 2, 1⟩ 99).2 (by decide)
    rw [h]; decide
  · have h := ((claim_C4_transfer_behaviour ⟨5, 2, 1⟩ (-2)).1 (by decide)).2 (by decide)
    rw [h]; decide
  · exact ((claim_C4_transfer_behaviour ⟨5, 2, 1⟩ (-3)).1 (by decide)).1 (by decide)

/-- C8: a state never written into a `Policy` reads back as action `0`, and
after `policy[state] = v` the read returns `v`. -/
theorem claim_C8_policy_default_and_update (p : Policy) (s : State) (v : ℤ) :
    (p.stateToActionMap s = none → p.getItem s = 0) ∧
      (p.setItem s v).getItem s = v := by
  constructor
  · intro h
    simp [Policy.getItem, h]
  · simp [Policy.getItem, Policy.setItem]

/-- Witness for C8 on the empty policy of capacity 3. -/
theorem claim_C8_policy_default_and_update_witness :
    (Policy.emptyPolicy 3).getItem (State.mk ⟨3, 1, 0⟩ ⟨3, 0, 2⟩) = 0 ∧
      ((Policy.emptyPolicy 3).setItem (State.mk ⟨3, 1, 0⟩ ⟨3, 0, 2⟩) 4).getItem
        (State.mk ⟨3, 1, 0⟩ ⟨3, 0, 2⟩) = 4 :=
  ⟨(claim_C8_policy_default_and_update (Policy.emptyPolicy 3)
      (State.mk ⟨3, 1, 0⟩ ⟨3, 0, 2⟩) 4).1 rfl,
    (claim_C8_policy_default_and_update (Policy.emptyPolicy 3)
      (State.mk ⟨3, 1, 0⟩ ⟨3, 0, 2⟩) 4).2⟩

section RentalProbabilities

variable {α : Type} [LinearOrderedField α]

/-- Helper: `rental_probabilities` with the local `rent_prob` list spelled
out. -/
lemma rental_probabilities_def (expNeg : α) (v : ℤ) :
    rental_probabilities expNeg v
      = ((List.range v.toNat).map
            (fun n => (RENT_RATE : α) ^ n / (Nat.factorial n : α) * expNeg))
        ++ [1 - ((List.range v.toNat).map
            (fun n => (RENT_RATE : α) ^ n / (Nat.factorial n : α) * expNeg)).sum] :=
  rfl

/-- Helper: the distribution over `[0, available]` has `available + 1`
entries. -/
lemma rental_probabilities_length (expNeg : α) (v : ℤ) :
    (rental_probabilities expNeg v).length = v.toNat + 1 := by
  rw [rental_probabilities_def]
  simp

/-- Helper: the probabilities sum to `1` exactly. -/
lemma rental_probabilities_sum (expNeg : α) (v : ℤ) :
    (rental_probabilities expNeg v).sum = 1 := by
  rw [rental_probabilities_def, List.sum_append]
  simp

/-- Helper: the entries below the truncation point follow the Poisson PMF. -/
lemma rental_probabilities_getD (expNeg : α) (v : ℤ) (n : ℕ) (hn : n < v.toNat) :
    (rental_probabilities expNeg v).getD n 0
      = (RENT_RATE : α) ^ n / (Nat.factorial n : α) * expNeg := by
  rw [rental_probabilities_def,
    List.getD_append _ _ _ n (by simpa using hn),
    List.getD_eq_getElem _ _ (by simpa using hn),
    List.getElem_map, List.getElem_range]

/-- Helper: `take` at the truncation point returns exactly the PMF part. -/
lemma rental_probabilities_take (expNeg : α) (v : ℤ) :
    (rental_probabilities expNeg v).take v.toNat
      = (List.range v.toNat).map
          (fun n => (RENT_RATE : α) ^ n / (Nat.factorial n : α) * expNeg) := by
  rw [rental_probabilities_def]
  exact List.take_left' (by simp)

/-- Helper: the final bucket absorbs the remaining mass. -/
lemma rental_probabilities_final (expNeg : α) (v : ℤ) :
    (rental_probabilities expNeg v).getD v.toNat 0
      = 1 - ((rental_probabilities expNeg v).take v.toNat).sum := by
  rw [rental_probabilities_take, rental_probabilities_def,
    List.getD_append_right _ _ _ _ (by simp)]
  simp

end RentalProbabilities

/-- C5: for every non-negative `k`, `rental_probabilities k` has exactly
`k + 1` entries; entry `n < k` is the Poisson PMF
`RENT_RATE^n / n! * exp(-RENT_RATE)`; the final entry is `1` minus the sum of
all preceding entries; and the entries sum to exactly `1`. -/
theorem claim_C5_rental_probabilities (k : ℕ) :
    (rental_probabilities (Real.exp (-(RENT_RATE : ℝ))) (k : ℤ)).length = k + 1 ∧
    (∀ n < k, (rental_probabilities (Real.exp (-(RENT_RATE : ℝ))) (k : ℤ)).getD n 0
      = (RENT_RATE : ℝ) ^ n / (Nat.factorial n : ℝ) * Real.exp (-(RENT_RATE : ℝ))) ∧
    (rental_probabilities (Real.exp (-(RENT_RATE : ℝ))) (k : ℤ)).getD k 0
      = 1 - ((rental_probabilities (Real.exp (-(RENT_RATE : ℝ))) (k : ℤ)).take k).sum ∧
    (rental_probabilities (Real.exp (-(RENT_RATE : ℝ))) (k : ℤ)).sum = 1 := by
  refine ⟨?_, fun n hn => ?_, ?_, rental_probabilities_sum _ _⟩
  · rw [rental_probabilities_length]
    simp
  · exact rental_probabilities_getD _ _ n (by simpa using hn)
  · have h := rental_probabilities_final (Real.exp (-(RENT_RATE : ℝ))) (k : ℤ)
    simpa using h

/-- Witness for C5 at `k = 2`, `n = 1`. -/
theorem claim_C5_rental_probabilities_witness :
    (rental_probabilities (Real.exp (-(RENT_RATE : ℝ))) (2 : ℤ)).getD 1 0
      = (RENT_RATE : ℝ) ^ 1 / (Nat.factorial 1 : ℝ) * Real.exp (-(RENT_RATE : ℝ)) ∧
    (rental_probabilities (Real.exp (-(RENT_RATE : ℝ))) (2 : ℤ)).sum = 1 :=
  ⟨by
      have h := (claim_C5_rental_probabilities 2).2.1 1 (by decide)
      simpa using h,
    by
      have h := (claim_C5_rental_probabilities 2).2.2.2
      simpa using h⟩

section EnumSums

/-- Helper: a summed map over `List.enumFrom` as a `Finset.range` sum. -/
lemma sum_map_enumFrom {α β : Type} [AddCommMonoid β] (g : ℕ × α → β) (d : α) :
    ∀ (l : List α) (n : ℕ),
      ((l.enumFrom n).map g).sum
        = ∑ i ∈ Finset.range l.length, g (n + i, l.getD i d)
  | [], n => by simp
  | a :: t, n => by
      rw [List.enumFrom_cons]
      simp only [List.map_cons, List.sum_cons, List.length_cons]
      rw [sum_map_enumFrom g d t (n + 1), Finset.sum_range_succ']
      simp only [List.getD_cons_succ, List.getD_cons_zero, add_zero]
      have h2 : ∑ k ∈ Finset.range t.length, g (n + (k + 1), t.getD k d)
          = ∑ k ∈ Finset.range t.length, g (n + 1 + k, t.getD k d) :=
        Finset.sum_congr rfl fun i _ => by
          rw [show n + (i + 1) = n + 1 + i by omega]
      rw [h2]
      exact add_comm _ _

/-- Helper: a summed map over `List.enum` (the Python
`for (i, x) in enumerate(l)` accumulation) as a `Finset.range` sum. -/
lemma sum_map_enum {α β : Type} [AddCommMonoid β] (g : ℕ × α → β) (d : α) (l : List α) :
    (l.enum.map g).sum = ∑ i ∈ Finset.range l.length, g (i, l.getD i d) := by
  have h := sum_map_enumFrom g d l 0
  simpa using h

end EnumSums

/-- Helper: the double `enumerate` loop of `estimate_action_value` as a double
`Finset.range` sum over customer counts. -/
lemma expectation_eq_sum {α : Type} [LinearOrderedField α] (expNeg : α)
    (bA bB : RentalBranch) (vm : State → α) :
    expectation expNeg bA bB vm
      = ∑ cA ∈ Finset.range (bA.available.toNat + 1),
          ∑ cB ∈ Finset.range (bB.available.toNat + 1),
            (rental_probabilities expNeg bA.available).getD cA 0 *
              (rental_probabilities expNeg bB.available).getD cB 0 *
              (((cA + cB : ℕ) : α) * RENTAL_INCOME + DISCOUNT_RATE *
                vm (State.mk
                  ⟨bA.max_capacity, bA.available - (cA : ℤ) + bA.queued, (cA : ℤ)⟩
                  ⟨bB.max_capacity, bB.available - (cB : ℤ) + bB.queued, (cB : ℤ)⟩)) := by
  unfold expectation
  rw [sum_map_enum _ (0 : α), rental_probabilities_length]
  refine Finset.sum_congr rfl fun cA hcA => ?_
  simp only
  rw [sum_map_enum _ (0 : α), rental_probabilities_length]

/-- C2: for every state satisfying the branch invariant and every action in
the legal range `[-available(B), available(A)]`, `estimate_action_value`
returns exactly `-TRANSFER_COST * |action|` plus the double sum, over customer
counts `custA ∈ [0, availA']` and `custB ∈ [0, availB']` for the post-transfer
available counts `availA'`, `availB'`, of
`probA * probB * ((custA + custB) * RENTAL_INCOME + DISCOUNT_RATE * value_map[next])`,
where the next state's branches have `available = available - customers + queued`
and `queued = customers`. -/
theorem claim_C2_legal_action_value (s : State) (a : ℤ) (vm : State → ℝ)
    (hA : BranchInv s.branchA) (hB : BranchInv s.branchB)
    (hlo : -s.branchB.available ≤ a) (hhi : a ≤ s.branchA.available) :
    ∃ bA bB, transfer_cars s.branchA (-a) = some bA ∧
      transfer_cars s.branchB a = some bB ∧
      estimate_action_value (Real.exp (-(RENT_RATE : ℝ))) s a vm
        = -TRANSFER_COST * (a.natAbs : ℝ)
          + ∑ cA ∈ Finset.range (bA.available.toNat + 1),
              ∑ cB ∈ Finset.range (bB.available.toNat + 1),
                (rental_probabilities (Real.exp (-(RENT_RATE : ℝ))) bA.available).getD cA 0 *
                  (rental_probabilities (Real.exp (-(RENT_RATE : ℝ))) bB.available).getD cB 0 *
                  (((cA + cB : ℕ) : ℝ) * RENTAL_INCOME + DISCOUNT_RATE *
                    vm (State.mk
                      ⟨bA.max_capacity, bA.available - (cA : ℤ) + bA.queued, (cA : ℤ)⟩
                      ⟨bB.max_capacity, bB.available - (cB : ℤ) + bB.queued, (cB : ℤ)⟩)) := by
  obtain ⟨bA, bB, hbA, hbB⟩ := (transfer_pair_succeeds hA hB).mpr ⟨hlo, hhi⟩
  refine ⟨bA, bB, hbA, hbB, ?_⟩
  simp only [estimate_action_value, hbA, hbB]
  rw [expectation_eq_sum]

/-- Witness for C2 at the concrete state `((3,2,1),(3,1,0))` with `a = 1`. -/
theorem claim_C2_legal_action_value_witness :
    ∃ bA bB, transfer_cars (State.mk ⟨3, 2, 1⟩ ⟨3, 1, 0⟩).branchA (-1) = some bA ∧
      transfer_cars (State.mk ⟨3, 2, 1⟩ ⟨3, 1, 0⟩).branchB 1 = some bB ∧
      estimate_action_value (Real.exp (-(RENT_RATE : ℝ)))
          (State.mk ⟨3, 2, 1⟩ ⟨3, 1, 0⟩) 1 (fun _ => 0)
        = -TRANSFER_COST * ((1 : ℤ).natAbs : ℝ)
          + ∑ cA ∈ Finset.range (bA.available.toNat + 1),
              ∑ cB ∈ Finset.range (bB.available.toNat + 1),
                (rental_probabilities (Real.exp (-(RENT_RATE : ℝ))) bA.available).getD cA 0 *
                  (rental_probabilities (Real.exp (-(RENT_RATE : ℝ))) bB.available).getD cB 0 *
                  (((cA + cB : ℕ) : ℝ) * RENTAL_INCOME + DISCOUNT_RATE *
                    (fun _ => (0 : ℝ)) (State.mk
                      ⟨bA.max_capacity, bA.available - (cA : ℤ) + bA.queued, (cA : ℤ)⟩
                      ⟨bB.max_capacity, bB.available - (cB : ℤ) + bB.queued, (cB : ℤ)⟩)) :=
  claim_C2_legal_action_value (State.mk ⟨3, 2, 1⟩ ⟨3, 1, 0⟩) 1 (fun _ => 0)
    (by decide) (by decide) (by decide) (by decide)

/-- Counterexample to C1 as stated: at the zero-capacity state, the legal
action `0` evaluated against the value map constantly `-10000/9` also returns
exactly `BAD_MOVE_COST`, so "returns `BAD_MOVE_COST` iff the action is
illegal" fails in the "only if" direction. -/
theorem claim_C1_counterexample :
    BranchInv (State.mk ⟨0, 0, 0⟩ ⟨0, 0, 0⟩).branchA ∧
    BranchInv (State.mk ⟨0, 0, 0⟩ ⟨0, 0, 0⟩).branchB ∧
    -(State.mk ⟨0, 0, 0⟩ ⟨0, 0, 0⟩).branchB.available ≤ (0 : ℤ) ∧
    (0 : ℤ) ≤ (State.mk ⟨0, 0, 0⟩ ⟨0, 0, 0⟩).branchA.available ∧
    estimate_action_value (Real.exp (-(RENT_RATE : ℝ)))
      (State.mk ⟨0, 0, 0⟩ ⟨0, 0, 0⟩) 0 (fun _ => -10000 / 9) = BAD_MOVE_COST := by
  refine ⟨by decide, by decide, by decide, by decide, ?_⟩
  norm_num [estimate_action_value, transfer_cars, expectation,
    rental_probabilities, BAD_MOVE_COST, DISCOUNT_RATE, RENTAL_INCOME,
    TRANSFER_COST, RENT_RATE, List.enum, List.enumFrom]

/-- C1 (amended): for every state satisfying the branch invariant, every value
map, and every action outside the legal range `[-available(B), available(A)]`,
`estimate_action_value` returns exactly `BAD_MOVE_COST`; the exception is
absorbed locally (the function returns normally).  The converse fails: a legal
action can also evaluate to exactly `-1000` (see the counterexample). -/
theorem claim_C1_illegal_action_penalty (s : State) (a : ℤ) (vm : State → ℝ)
    (hA : BranchInv s.branchA) (hB : BranchInv s.branchB)
    (hout : a < -s.branchB.available ∨ s.branchA.available < a) :
    estimate_action_value (Real.exp (-(RENT_RATE : ℝ))) s a vm = BAD_MOVE_COST := by
  have hnone : ¬ ∃ bA bB, transfer_cars s.branchA (-a) = some bA ∧
      transfer_cars s.branchB a = some bB := by
    rw [transfer_pair_succeeds hA hB]
    omega
  unfold estimate_action_value
  cases h1 : transfer_cars s.branchA (-a) with
  | none => cases transfer_cars s.branchB a <;> rfl
  | some bA =>
    cases h2 : transfer_cars s.branchB a with
    | none => rfl
    | some bB => exact absurd ⟨bA, bB, h1, h2⟩ hnone

/-- Witness for the amended C1: the illegal action `2` at a state with one
available car in branch A and none in branch B. -/
theorem claim_C1_illegal_action_penalty_witness :
    estimate_action_value (Real.exp (-(RENT_RATE : ℝ)))
      (State.mk ⟨3, 1, 0⟩ ⟨3, 0, 0⟩) 2 (fun _ => 0) = BAD_MOVE_COST :=
  claim_C1_illegal_action_penalty (State.mk ⟨3, 1, 0⟩ ⟨3, 0, 0⟩) 2 (fun _ => 0)
    (by decide) (by decide) (by decide)

section PyMax

variable {α : Type} [LinearOrderedField α]

/-- Helper: one step of the Python `max` fold. -/
lemma pymax1_cons (acc e : ℤ × α) (t : List (ℤ × α)) :
    pymax1 acc (e :: t) = pymax1 (if acc.2 < e.2 then e else acc) t := rfl

/-- Helper: the Python `max` fold either keeps the accumulator (all keys at
most its key) or returns the first element whose key is maximal and strictly
above the accumulator's. -/
lemma pymax1_spec :
    ∀ (xs : List (ℤ × α)) (acc : ℤ × α),
      (pymax1 acc xs = acc ∧ ∀ e ∈ xs, e.2 ≤ acc.2) ∨
      (∃ i, ∃ hi : i < xs.length,
        pymax1 acc xs = xs[i] ∧ acc.2 < (xs[i]).2 ∧
        (∀ e ∈ xs, e.2 ≤ (xs[i]).2) ∧
        ∀ j, (hj : j < xs.length) → j < i → (xs[j]).2 < (xs[i]).2)
  | [], acc => Or.inl ⟨rfl, by simp⟩
  | e :: t, acc => by
      rw [pymax1_cons]
      by_cases h : acc.2 < e.2
      · rw [if_pos h]
        rcases pymax1_spec t e with ⟨heq, hle⟩ | ⟨i, hi, heq, hlt, hle, hstrict⟩
        · refine Or.inr ⟨0, by simp, by simpa using heq, by simpa using h, ?_, ?_⟩
          · intro x hx
            rcases List.mem_cons.mp hx with rfl | hx
            · simp
            · simpa using hle x hx
          · intro j hj hj0
            omega
        · refine Or.inr ⟨i + 1, by simpa using Nat.succ_lt_succ hi, ?_, ?_, ?_, ?_⟩
          · simpa using heq
          · simpa using lt_trans h hlt
          · intro x hx
            rcases List.mem_cons.mp hx with rfl | hx
            · simpa using le_of_lt hlt
            · simpa using hle x hx
          · intro j hj hji
            match j with
            | 0 => simpa using hlt
            | j' + 1 =>
              have hj' : j' < t.length := by simpa using hj
              simpa using hstrict j' hj' (by omega)
      · rw [if_neg h]
        rcases pymax1_spec t acc with ⟨heq, hle⟩ | ⟨i, hi, heq, hlt, hle, hstrict⟩
        · refine Or.inl ⟨heq, ?_⟩
          intro x hx
          rcases List.mem_cons.mp hx with rfl | hx
          · exact le_of_not_lt h
          · exact hle x hx
        · refine Or.inr ⟨i + 1, by simpa using Nat.succ_lt_succ hi, ?_, ?_, ?_, ?_⟩
          · simpa using heq
          · simpa using hlt
          · intro x hx
            rcases List.mem_cons.mp hx with rfl | hx
            · simpa using le_trans (le_of_not_lt h) (le_of_lt hlt)
            · simpa using hle x hx
          · intro j hj hji
            match j with
            | 0 => simpa using lt_of_le_of_lt (le_of_not_lt h) hlt
            | j' + 1 =>
              have hj' : j' < t.length := by simpa using hj
              simpa using hstrict j' hj' (by omega)

/-- Helper: on a non-empty list, Python `max` returns the element at the first
position attaining the maximal key: all keys are at most its key, and every
strictly earlier key is strictly below it. -/
lemma pymax1_first_argmax (x : ℤ × α) (xs : List (ℤ × α)) :
    ∃ m, ∃ hm : m < (x :: xs).length,
      pymax1 x xs = (x :: xs)[m] ∧
      (∀ e ∈ x :: xs, e.2 ≤ (pymax1 x xs).2) ∧
      ∀ j, (hj : j < (x :: xs).length) → j < m → ((x :: xs)[j]).2 < (pymax1 x xs).2 := by
  rcases pymax1_spec xs x with ⟨heq, hle⟩ | ⟨i, hi, heq, hlt, hle, hstrict⟩
  · refine ⟨0, by simp, by simpa using heq, ?_, ?_⟩
    · intro e he
      rcases List.mem_cons.mp he with rfl | he
      · rw [heq]
      · rw [heq]; exact hle e he
    · intro j hj hj0
      omega
  · refine ⟨i + 1, by simpa using Nat.succ_lt_succ hi, by simpa using heq, ?_, ?_⟩
    · intro e he
      rw [heq]
      rcases List.mem_cons.mp he with rfl | he
      · exact le_of_lt hlt
      · exact hle e he
    · intro j hj hji
      rw [heq]
      match j with
      | 0 => simpa using hlt
      | j' + 1 =>
        have hj' : j' < xs.length := by simpa using hj
        simpa using hstrict j' hj' (by omega)

/-- Helper: `pymax1_first_argmax` phrased with `getElem?`, so it transports
along equalities of lists without dependent index proofs. -/
lemma pymax1_first_argmax_getElem? (x : ℤ × α) (xs : List (ℤ × α)) :
    ∃ m : ℕ, (x :: xs)[m]? = some (pymax1 x xs) ∧
      (∀ e ∈ x :: xs, e.2 ≤ (pymax1 x xs).2) ∧
      ∀ j : ℕ, j < m → ∀ e : ℤ × α, (x :: xs)[j]? = some e → e.2 < (pymax1 x xs).2 := by
  obtain ⟨m, hm, hbeq, hle, hstrict⟩ := pymax1_first_argmax x xs
  refine ⟨m, ?_, hle, ?_⟩
  · rw [List.getElem?_eq_getElem hm, hbeq]
  · intro j hj e he
    obtain ⟨hjlen, hval⟩ := List.getElem?_eq_some_iff.mp he
    rw [← hval]
    exact hstrict j hjlen hj

end PyMax

section ActionIter

/-- Helper: the action list has `available(A) + available(B) + 1` entries. -/
lemma action_iter_length (s : State) :
    (action_iter s).length
      = (s.branchA.available + s.branchB.available + 1).toNat := by
  simp [action_iter]

/-- Helper: the `j`-th enumerated action is `-available(B) + j`; the
enumeration is ascending. -/
lemma action_iter_getElem? (s : State) (j : ℕ) (a : ℤ)
    (h : (action_iter s)[j]? = some a) :
    a = -s.branchB.available + (j : ℤ) := by
  unfold action_iter at h
  rw [List.getElem?_map] at h
  cases hr : (List.range (s.branchA.available + s.branchB.available + 1).toNat)[j]? with
  | none => rw [hr] at h; exact absurd h (by simp)
  | some k =>
    rw [hr] at h
    obtain ⟨hjlt, hk⟩ := List.getElem?_eq_some_iff.mp hr
    rw [List.getElem_range] at hk
    subst hk
    simp only [Option.map_some', Option.some.injEq] at h
    exact h.symm

/-- Helper: membership in `action_iter` is exactly the legal range
`[-available(B), available(A)]`. -/
lemma mem_action_iter (s : State) (a : ℤ) :
    a ∈ action_iter s ↔
      -s.branchB.available ≤ a ∧ a ≤ s.branchA.available := by
  unfold action_iter
  simp only [List.mem_map, List.mem_range]
  constructor
  · rintro ⟨k, hk, rfl⟩
    omega
  · rintro ⟨h1, h2⟩
    exact ⟨(a + s.branchB.available).toNat, by omega, by omega⟩

end ActionIter

/-- Helper: with non-negative available counts, the improvement step computes
`some b` where `b` is the first pair of the action-value list attaining the
maximal value: `b.1` is a legal action, `b.2` its estimated return, no legal
action beats it, every optimal legal action is at least `b.1`, and the policy
entry is rewritten exactly when `b.1` differs from the stored action. -/
lemma best_action_first_argmax {α : Type} [LinearOrderedField α] (expNeg : α)
    (s : State) (vm : State → α)
    (hA : 0 ≤ s.branchA.available) (hB : 0 ≤ s.branchB.available) :
    ∃ b : ℤ × α,
      best_action expNeg s vm = some b ∧
      b.1 ∈ action_iter s ∧
      b.2 = estimate_action_value expNeg s b.1 vm ∧
      (∀ a ∈ action_iter s, estimate_action_value expNeg s a vm ≤ b.2) ∧
      (∀ a ∈ action_iter s, estimate_action_value expNeg s a vm = b.2 → b.1 ≤ a) ∧
      (∀ (p : Policy) (c : Bool),
        improve_step expNeg vm (some (p, c)) s =
          if p.getItem s = b.1 then some (p, c)
          else some (p.setItem s b.1, true)) := by
  have hlen : 0 < (action_iter s).length := by
    rw [action_iter_length]
    omega
  cases hl : (action_iter s).map (fun a => (a, estimate_action_value expNeg s a vm)) with
  | nil =>
    exfalso
    have h0 := congrArg List.length hl
    simp only [List.length_map, List.length_nil] at h0
    omega
  | cons x xs =>
    have hba : best_action expNeg s vm = some (pymax1 x xs) := by
      simp only [best_action]
      rw [hl]
    obtain ⟨m, hbm, hle, hstrict⟩ := pymax1_first_argmax_getElem? x xs
    rw [← hl] at hbm hle hstrict
    rw [List.getElem?_map] at hbm
    cases ham : (action_iter s)[m]? with
    | none => rw [ham] at hbm; exact absurd hbm (by simp)
    | some am =>
      rw [ham] at hbm
      simp only [Option.map_some', Option.some.injEq] at hbm
      obtain ⟨hmlen, hamval⟩ := List.getElem?_eq_some_iff.mp ham
      have hbm1 : (pymax1 x xs).1 = am := by rw [← hbm]
      have hbm2 : (pymax1 x xs).2 = estimate_action_value expNeg s am vm := by
        rw [← hbm]
      refine ⟨pymax1 x xs, hba, ?_, ?_, ?_, ?_, ?_⟩
      · rw [hbm1, ← hamval]
        exact List.getElem_mem hmlen
      · rw [hbm1, hbm2]
      · intro a ha
        exact hle (a, estimate_action_value expNeg s a vm) (List.mem_map_of_mem _ ha)
      · intro a ha hmax
        obtain ⟨j, hj⟩ := List.getElem?_of_mem ha
        by_cases hjm : j < m
        · exfalso
          have hje : ((action_iter s).map
              (fun a => (a, estimate_action_value expNeg s a vm)))[j]?
                = some (a, estimate_action_value expNeg s a vm) := by
            rw [List.getElem?_map, hj]
            rfl
          have hlt := hstrict j hjm (a, estimate_action_value expNeg s a vm) hje
          have hlt2 : estimate_action_value expNeg s a vm < (pymax1 x xs).2 := hlt
          rw [hmax] at hlt2
          exact absurd hlt2 (lt_irrefl _)
        · have haj := action_iter_getElem? s j a hj
          have ham2 := action_iter_getElem? s m am ham
          rw [hbm1, ham2, haj]
          omega
      · intro p c
        simp only [improve_step, hba]
        by_cases hc : p.getItem s = (pymax1 x xs).1
        · rw [if_neg (by simpa using hc), if_pos hc]
        · rw [if_pos (by simpa using hc), if_neg hc]

/-- C6: for every state satisfying the branch invariant, the improvement step
computes a best pair `b`: its action lies in the enumerated legal range, its
value is the estimated return of that action, no legal action has a strictly
greater estimated return, every legal action attaining the maximum is at least
`b.1` (so `b.1` is the least element of the argmax set, the first in the
ascending enumeration), and the policy entry is rewritten only when `b.1`
differs from the currently stored action. -/
theorem claim_C6_improvement_first_argmax (s : State) (vm : State → ℝ)
    (hA : BranchInv s.branchA) (hB : BranchInv s.branchB) :
    ∃ b : ℤ × ℝ,
      best_action (Real.exp (-(RENT_RATE : ℝ))) s vm = some b ∧
      b.1 ∈ action_iter s ∧
      b.2 = estimate_action_value (Real.exp (-(RENT_RATE : ℝ))) s b.1 vm ∧
      (∀ a ∈ action_iter s,
        estimate_action_value (Real.exp (-(RENT_RATE : ℝ))) s a vm ≤ b.2) ∧
      (∀ a ∈ action_iter s,
        estimate_action_value (Real.exp (-(RENT_RATE : ℝ))) s a vm = b.2 →
          b.1 ≤ a) ∧
      (∀ (p : Policy) (c : Bool),
        improve_step (Real.exp (-(RENT_RATE : ℝ))) vm (some (p, c)) s =
          if p.getItem s = b.1 then some (p, c)
          else some (p.setItem s b.1, true)) :=
  best_action_first_argmax (Real.exp (-(RENT_RATE : ℝ))) s vm hA.1 hB.1

/-- Witness for C6 at the concrete state `((1,1,0),(1,0,0))` with the zero
value map. -/
theorem claim_C6_improvement_first_argmax_witness :
    ∃ b : ℤ × ℝ,
      best_action (Real.exp (-(RENT_RATE : ℝ)))
        (State.mk ⟨1, 1, 0⟩ ⟨1, 0, 0⟩) (fun _ => 0) = some b ∧
      b.1 ∈ action_iter (State.mk ⟨1, 1, 0⟩ ⟨1, 0, 0⟩) ∧
      b.2 = estimate_action_value (Real.exp (-(RENT_RATE : ℝ)))
        (State.mk ⟨1, 1, 0⟩ ⟨1, 0, 0⟩) b.1 (fun _ => 0) ∧
      (∀ a ∈ action_iter (State.mk ⟨1, 1, 0⟩ ⟨1, 0, 0⟩),
        estimate_action_value (Real.exp (-(RENT_RATE : ℝ)))
          (State.mk ⟨1, 1, 0⟩ ⟨1, 0, 0⟩) a (fun _ => 0) ≤ b.2) ∧
      (∀ a ∈ action_iter (State.mk ⟨1, 1, 0⟩ ⟨1, 0, 0⟩),
        estimate_action_value (Real.exp (-(RENT_RATE : ℝ)))
          (State.mk ⟨1, 1, 0⟩ ⟨1, 0, 0⟩) a (fun _ => 0) = b.2 →
          b.1 ≤ a) ∧
      (∀ (p : Policy) (c : Bool),
        improve_step (Real.exp (-(RENT_RATE : ℝ))) (fun _ => (0 : ℝ)) (some (p, c))
            (State.mk ⟨1, 1, 0⟩ ⟨1, 0, 0⟩) =
          if p.getItem (State.mk ⟨1, 1, 0⟩ ⟨1, 0, 0⟩) = b.1 then some (p, c)
          else some (p.setItem (State.mk ⟨1, 1, 0⟩ ⟨1, 0, 0⟩) b.1, true)) :=
  claim_C6_improvement_first_argmax (State.mk ⟨1, 1, 0⟩ ⟨1, 0, 0⟩) (fun _ => 0)
    (by decide) (by decide)

section StateSpace

/-- Helper: a state is enumerated by `state_iter C` exactly when both branches
carry capacity `C`, non-negative counts, and totals within `C`. -/
lemma mem_state_iter (C : ℕ) (s : State) :
    s ∈ state_iter C ↔
      (s.branchA.max_capacity = (C : ℤ) ∧ 0 ≤ s.branchA.available ∧
        0 ≤ s.branchA.queued ∧
        s.branchA.available + s.branchA.queued ≤ (C : ℤ) ∧
        s.branchB.max_capacity = (C : ℤ) ∧ 0 ≤ s.branchB.available ∧
        0 ≤ s.branchB.queued ∧
        s.branchB.available + s.branchB.queued ≤ (C : ℤ)) := by
  obtain ⟨⟨mA, aA, qA⟩, ⟨mB, aB, qB⟩⟩ := s
  unfold state_iter
  simp only [List.mem_flatMap, List.mem_map, List.mem_range, State.mk.injEq,
    RentalBranch.mk.injEq]
  constructor
  · rintro ⟨tA, htA, kA, hkA, tB, htB, kB, hkB, ⟨h1, h2, h3⟩, h4, h5, h6⟩
    refine ⟨?_, ?_, ?_, ?_, ?_, ?_, ?_, ?_⟩ <;> omega
  · rintro ⟨h1, h2, h3, h4, h5, h6, h7, h8⟩
    refine ⟨(aA + qA).toNat, by omega, qA.toNat, by omega,
      (aB + qB).toNat, by omega, qB.toNat, by omega,
      ⟨by omega, by omega, by omega⟩, by omega, by omega, by omega⟩

/-- Helper: the key set written by `ValueMap.random_initialization` has the
same characterization (the two loop nests are identical). -/
lemma mem_random_init_keys (C : ℕ) (s : State) :
    s ∈ random_init_keys C ↔
      (s.branchA.max_capacity = (C : ℤ) ∧ 0 ≤ s.branchA.available ∧
        0 ≤ s.branchA.queued ∧
        s.branchA.available + s.branchA.queued ≤ (C : ℤ) ∧
        s.branchB.max_capacity = (C : ℤ) ∧ 0 ≤ s.branchB.available ∧
        0 ≤ s.branchB.queued ∧
        s.branchB.available + s.branchB.queued ≤ (C : ℤ)) := by
  obtain ⟨⟨mA, aA, qA⟩, ⟨mB, aB, qB⟩⟩ := s
  unfold random_init_keys
  simp only [List.mem_flatMap, List.mem_map, List.mem_range, State.mk.injEq,
    RentalBranch.mk.injEq]
  constructor
  · rintro ⟨tA, htA, kA, hkA, tB, htB, kB, hkB, ⟨h1, h2, h3⟩, h4, h5, h6⟩
    refine ⟨?_, ?_, ?_, ?_, ?_, ?_, ?_, ?_⟩ <;> omega
  · rintro ⟨h1, h2, h3, h4, h5, h6, h7, h8⟩
    refine ⟨(aA + qA).toNat, by omega, qA.toNat, by omega,
      (aB + qB).toNat, by omega, qB.toNat, by omega,
      ⟨by omega, by omega, by omega⟩, by omega, by omega, by omega⟩

end StateSpace

/-- C10: successor closure.  For every state enumerated by `state_iter C` and
every legal action, the transfers succeed, and every next-day state built in
the expectation loop (customer counts bounded by the lengths of the two demand
distributions) preserves each branch's `available + queued` total from the
post-transfer branch, keeps it at most `C`, and is again a state enumerated by
`state_iter C` and a key written by `random_initialization C` — so its
`value_map` lookup succeeds. -/
theorem claim_C10_successor_closure (C : ℕ) (s : State) (a : ℤ)
    (hs : s ∈ state_iter C)
    (hlo : -s.branchB.available ≤ a) (hhi : a ≤ s.branchA.available) :
    ∃ bA bB, transfer_cars s.branchA (-a) = some bA ∧
      transfer_cars s.branchB a = some bB ∧
      ∀ cA < (rental_probabilities (Real.exp (-(RENT_RATE : ℝ))) bA.available).length,
        ∀ cB < (rental_probabilities (Real.exp (-(RENT_RATE : ℝ))) bB.available).length,
          (State.mk ⟨bA.max_capacity, bA.available - (cA : ℤ) + bA.queued, (cA : ℤ)⟩
              ⟨bB.max_capacity, bB.available - (cB : ℤ) + bB.queued, (cB : ℤ)⟩
            ∈ state_iter C) ∧
          (State.mk ⟨bA.max_capacity, bA.available - (cA : ℤ) + bA.queued, (cA : ℤ)⟩
              ⟨bB.max_capacity, bB.available - (cB : ℤ) + bB.queued, (cB : ℤ)⟩
            ∈ random_init_keys C) ∧
          (bA.available - (cA : ℤ) + bA.queued) + (cA : ℤ) = bA.available + bA.queued ∧
          (bB.available - (cB : ℤ) + bB.queued) + (cB : ℤ) = bB.available + bB.queued ∧
          bA.available + bA.queued ≤ (C : ℤ) ∧
          bB.available + bB.queued ≤ (C : ℤ) := by
  obtain ⟨hmA, haA, hqA, htA, hmB, haB, hqB, htB⟩ := (mem_state_iter C s).mp hs
  have hinvA : BranchInv s.branchA := ⟨haA, hqA, by omega⟩
  have hinvB : BranchInv s.branchB := ⟨haB, hqB, by omega⟩
  obtain ⟨bA, bB, hbA, hbB⟩ := (transfer_pair_succeeds hinvA hinvB).mpr ⟨hlo, hhi⟩
  obtain ⟨hcapA, hqueA, havA, hsumA⟩ := transfer_cars_some_inv hinvA hbA
  obtain ⟨hcapB, hqueB, havB, hsumB⟩ := transfer_cars_some_inv hinvB hbB
  refine ⟨bA, bB, hbA, hbB, fun cA hcA cB hcB => ?_⟩
  rw [rental_probabilities_length] at hcA hcB
  have hcA' : (cA : ℤ) ≤ bA.available := by omega
  have hcB' : (cB : ℤ) ≤ bB.available := by omega
  refine ⟨?_, ?_, by omega, by omega, by omega, by omega⟩
  · rw [mem_state_iter]
    dsimp only
    refine ⟨?_, ?_, ?_, ?_, ?_, ?_, ?_, ?_⟩ <;> omega
  · rw [mem_random_init_keys]
    dsimp only
    refine ⟨?_, ?_, ?_, ?_, ?_, ?_, ?_, ?_⟩ <;> omega

/-- Witness for C10 at `C = 1`, the state `((1,1,0),(1,0,0))` and action `1`. -/
theorem claim_C10_successor_closure_witness :
    ∃ bA bB,
      transfer_cars (State.mk ⟨1, 1, 0⟩ ⟨1, 0, 0⟩).branchA (-1) = some bA ∧
      transfer_cars (State.mk ⟨1, 1, 0⟩ ⟨1, 0, 0⟩).branchB 1 = some bB ∧
      ∀ cA < (rental_probabilities (Real.exp (-(RENT_RATE : ℝ))) bA.available).length,
        ∀ cB < (rental_probabilities (Real.exp (-(RENT_RATE : ℝ))) bB.available).length,
          (State.mk ⟨bA.max_capacity, bA.available - (cA : ℤ) + bA.queued, (cA : ℤ)⟩
              ⟨bB.max_capacity, bB.available - (cB : ℤ) + bB.queued, (cB : ℤ)⟩
            ∈ state_iter 1) ∧
          (State.mk ⟨bA.max_capacity, bA.available - (cA : ℤ) + bA.queued, (cA : ℤ)⟩
              ⟨bB.max_capacity, bB.available - (cB : ℤ) + bB.queued, (cB : ℤ)⟩
            ∈ random_init_keys 1) ∧
          (bA.available - (cA : ℤ) + bA.queued) + (cA : ℤ) = bA.available + bA.queued ∧
          (bB.available - (cB : ℤ) + bB.queued) + (cB : ℤ) = bB.available + bB.queued ∧
          bA.available + bA.queued ≤ (1 : ℤ) ∧
          bB.available + bB.queued ≤ (1 : ℤ) :=
  claim_C10_successor_closure 1 (State.mk ⟨1, 1, 0⟩ ⟨1, 0, 0⟩) 1
    (by decide) (by decide) (by decide)

section HeapModel

/-- Read the `RentalBranch` object at reference `r` in a heap of Python
objects (out-of-range reads return a dummy; the theorems only use valid
references). -/
def heap_get (h : List RentalBranch) (r : ℕ) : RentalBranch :=
  h.getD r ⟨0, 0, 0⟩

/-- `copy.copy(branch)` (`src/main.py` lines 162–163): allocate a fresh
object with the same field values; returns the new heap and the fresh
reference. -/
def heap_copy (h : List RentalBranch) (r : ℕ) : List RentalBranch × ℕ :=
  (h ++ [heap_get h r], h.length)

/-- `branch.transfer_cars(delta)` as an in-place mutation of the object at
reference `r`. -/
def heap_transfer (h : List RentalBranch) (r : ℕ) (delta : ℤ) :
    Option (List RentalBranch) :=
  match transfer_cars (heap_get h r) delta with
  | none => none
  | some b => some (h.set r b)

/-- `estimate_action_value` with explicit object identity: the caller's state
is the pair of references `(refA, refB)` into the heap; the function copies
both branch objects and mutates only the copies (`src/main.py` lines
161–171), then reads the expectation loop value from the copies.  Returns the
final heap together with the result. -/
def estimate_action_value_heap {α : Type} [LinearOrderedField α] (expNeg : α)
    (h : List RentalBranch) (refA refB : ℕ) (action : ℤ)
    (value_map : State → α) : List RentalBranch × α :=
  let pA := heap_copy h refA
  let pB := heap_copy pA.1 refB
  match heap_transfer pB.1 pA.2 (-action) with
  | none => (pB.1, BAD_MOVE_COST)
  | some h3 =>
    match heap_transfer h3 pB.2 action with
    | none => (h3, BAD_MOVE_COST)
    | some h4 =>
      (h4, -TRANSFER_COST * (action.natAbs : α)
        + expectation expNeg (heap_get h4 pA.2) (heap_get h4 pB.2) value_map)

/-- Helper: appending fresh objects does not change existing cells. -/
lemma heap_get_append (h : List RentalBranch) (b : RentalBranch) (i : ℕ)
    (hi : i < h.length) : heap_get (h ++ [b]) i = heap_get h i := by
  unfold heap_get
  exact List.getD_append _ _ _ _ hi

/-- Helper: setting one cell does not change the others. -/
lemma heap_get_set_ne (h : List RentalBranch) (b : RentalBranch) (r i : ℕ)
    (hri : r ≠ i) : heap_get (h.set r b) i = heap_get h i := by
  unfold heap_get
  rw [List.getD_eq_getElem?_getD, List.getD_eq_getElem?_getD,
    List.getElem?_set_ne hri]

/-- Helper: a successful in-place transfer only touches the targeted cell. -/
lemma heap_transfer_preserves (h h' : List RentalBranch) (r : ℕ) (d : ℤ)
    (ht : heap_transfer h r d = some h') (i : ℕ) (hri : r ≠ i) :
    heap_get h' i = heap_get h i := by
  unfold heap_transfer at ht
  cases htc : transfer_cars (heap_get h r) d with
  | none => rw [htc] at ht; exact absurd ht (by simp)
  | some b =>
    rw [htc] at ht
    simp only [Option.some_inj] at ht
    rw [← ht]
    exact heap_get_set_ne h b r i hri

/-- Helper: `estimate_action_value_heap` never changes any pre-existing heap
cell: the copies live at fresh references and only they are mutated. -/
lemma estimate_action_value_heap_frame {α : Type} [LinearOrderedField α]
    (expNeg : α) (h : List RentalBranch) (refA refB : ℕ) (action : ℤ)
    (vm : State → α) (i : ℕ) (hi : i < h.length) :
    heap_get ((estimate_action_value_heap expNeg h refA refB action vm).1) i
      = heap_get h i := by
  unfold estimate_action_value_heap
  simp only [heap_copy]
  set h1 := h ++ [heap_get h refA] with hh1
  set h2 := h1 ++ [heap_get h1 refB] with hh2
  have hi1 : i < h1.length := by rw [hh1]; simp; omega
  have hne1 : h.length ≠ i := by omega
  have hne2 : h1.length ≠ i := by rw [hh1]; simp; omega
  have hget2 : heap_get h2 i = heap_get h i := by
    rw [hh2, heap_get_append _ _ _ hi1, hh1, heap_get_append _ _ _ hi]
  cases ht1 : heap_transfer h2 h.length (-action) with
  | none => exact hget2
  | some h3 =>
    dsimp only
    have hg3 : heap_get h3 i = heap_get h i := by
      rw [heap_transfer_preserves h2 h3 _ _ ht1 i hne1]
      exact hget2
    cases ht2 : heap_transfer h3 h1.length action with
    | none => exact hg3
    | some h4 =>
      dsimp only
      rw [heap_transfer_preserves h3 h4 _ _ ht2 i hne2]
      exact hg3

end HeapModel

/-- C9: `estimate_action_value` never mutates its state argument.  In the
heap model where the caller's state is the pair of object references
`(refA, refB)`, the objects at `refA` and `refB` — all three fields — are
identical before and after the call on every path (illegal-move path
included), because the transfers are applied only to the freshly allocated
copies; indeed no pre-existing heap cell changes at all. -/
theorem claim_C9_state_not_mutated (h : List RentalBranch) (refA refB : ℕ)
    (action : ℤ) (vm : State → ℝ)
    (hA : refA < h.length) (hB : refB < h.length) :
    heap_get ((estimate_action_value_heap (Real.exp (-(RENT_RATE : ℝ)))
        h refA refB action vm).1) refA = heap_get h refA ∧
    heap_get ((estimate_action_value_heap (Real.exp (-(RENT_RATE : ℝ)))
        h refA refB action vm).1) refB = heap_get h refB ∧
    ∀ i < h.length,
      heap_get ((estimate_action_value_heap (Real.exp (-(RENT_RATE : ℝ)))
          h refA refB action vm).1) i = heap_get h i :=
  ⟨estimate_action_value_heap_frame _ h refA refB action vm refA hA,
    estimate_action_value_heap_frame _ h refA refB action vm refB hB,
    fun i hi => estimate_action_value_heap_frame _ h refA refB action vm i hi⟩

/-- Witness for C9 on a two-object heap, one reference per branch. -/
theorem claim_C9_state_not_mutated_witness :
    heap_get ((estimate_action_value_heap (Real.exp (-(RENT_RATE : ℝ)))
        [⟨2, 1, 0⟩, ⟨2, 0, 1⟩] 0 1 1 (fun _ => 0)).1) 0
      = heap_get [⟨2, 1, 0⟩, ⟨2, 0, 1⟩] 0 ∧
    heap_get ((estimate_action_value_heap (Real.exp (-(RENT_RATE : ℝ)))
        [⟨2, 1, 0⟩, ⟨2, 0, 1⟩] 0 1 1 (fun _ => 0)).1) 1
      = heap_get [⟨2, 1, 0⟩, ⟨2, 0, 1⟩] 1 ∧
    ∀ i < ([⟨2, 1, 0⟩, ⟨2, 0, 1⟩] : List RentalBranch).length,
      heap_get ((estimate_action_value_heap (Real.exp (-(RENT_RATE : ℝ)))
          [⟨2, 1, 0⟩, ⟨2, 0, 1⟩] 0 1 1 (fun _ => 0)).1) i
        = heap_get [⟨2, 1, 0⟩, ⟨2, 0, 1⟩] i :=
  claim_C9_state_not_mutated [⟨2, 1, 0⟩, ⟨2, 0, 1⟩] 0 1 1 (fun _ => 0)
    (by decide) (by decide)

section CapacityZero

/-- Helper: at the unique capacity-0 state, evaluating action 0 returns the
discounted value of the same state (no transfer cost, no rental income, the
single demand outcome has probability 1). -/
lemma estimate_action_value_zero_state {α : Type} [LinearOrderedField α]
    (expNeg : α) (w : State → α) :
    estimate_action_value expNeg (State.mk ⟨0, 0, 0⟩ ⟨0, 0, 0⟩) 0 w
      = DISCOUNT_RATE * w (State.mk ⟨0, 0, 0⟩ ⟨0, 0, 0⟩) := by
  have htA : transfer_cars (⟨0, 0, 0⟩ : RentalBranch) (-(0 : ℤ)) = some ⟨0, 0, 0⟩ := by
    decide
  have htB : transfer_cars (⟨0, 0, 0⟩ : RentalBranch) (0 : ℤ) = some ⟨0, 0, 0⟩ := by
    decide
  simp only [estimate_action_value, htA, htB]
  rw [expectation_eq_sum]
  norm_num [rental_probabilities, TRANSFER_COST, RENTAL_INCOME]

/-- Helper: with capacity 0, one improvement sweep (under any value map)
keeps the empty policy and reports no change. -/
lemma improvement_sweep_zero {α : Type} [LinearOrderedField α]
    (expNeg : α) (w : State → α) :
    improvement_sweep expNeg 0 w (Policy.emptyPolicy 0)
      = some (Policy.emptyPolicy 0, false) := by
  have hstates : state_iter 0 = [State.mk ⟨0, 0, 0⟩ ⟨0, 0, 0⟩] := by decide
  have hact : action_iter (State.mk ⟨0, 0, 0⟩ ⟨0, 0, 0⟩) = [(0 : ℤ)] := by decide
  have hbest : best_action expNeg (State.mk ⟨0, 0, 0⟩ ⟨0, 0, 0⟩) w
      = some (0, estimate_action_value expNeg (State.mk ⟨0, 0, 0⟩ ⟨0, 0, 0⟩) 0 w) := by
    simp only [best_action, hact, List.map_cons, List.map_nil]
    rfl
  calc improvement_sweep expNeg 0 w (Policy.emptyPolicy 0)
      = improve_step expNeg w (some (Policy.emptyPolicy 0, false))
          (State.mk ⟨0, 0, 0⟩ ⟨0, 0, 0⟩) := by
        simp only [improvement_sweep, hstates, List.foldl_cons, List.foldl_nil]
    _ = some (Policy.emptyPolicy 0, false) := by
        simp only [improve_step, hbest]
        simp [Policy.getItem, Policy.emptyPolicy]

end CapacityZero

/-- C7: with `max_capacity = 0` the enumerated state space is the single
state `((0,0,0),(0,0,0))`, its legal action range is exactly `[0]`, one
evaluation sweep from any value map with values in `[0, 10]` produces a
maximum change of at most the threshold 1 (so the inner loop of `main` stops
after a single sweep), the following improvement sweep changes nothing (so
`main` terminates), and the final policy maps the single state to action 0. -/
theorem claim_C7_capacity_zero (vm : State → ℝ)
    (h0 : ∀ s, 0 ≤ vm s) (h10 : ∀ s, vm s ≤ 10) :
    state_iter 0 = [State.mk ⟨0, 0, 0⟩ ⟨0, 0, 0⟩] ∧
    action_iter (State.mk ⟨0, 0, 0⟩ ⟨0, 0, 0⟩) = [(0 : ℤ)] ∧
    (eval_sweep (Real.exp (-(RENT_RATE : ℝ))) 0 (Policy.emptyPolicy 0) vm).2 ≤ 1 ∧
    improvement_sweep (Real.exp (-(RENT_RATE : ℝ))) 0
        (eval_sweep (Real.exp (-(RENT_RATE : ℝ))) 0 (Policy.emptyPolicy 0) vm).1
        (Policy.emptyPolicy 0)
      = some (Policy.emptyPolicy 0, false) ∧
    (Policy.emptyPolicy 0).getItem (State.mk ⟨0, 0, 0⟩ ⟨0, 0, 0⟩) = 0 := by
  have hstates : state_iter 0 = [State.mk ⟨0, 0, 0⟩ ⟨0, 0, 0⟩] := by decide
  have hact : action_iter (State.mk ⟨0, 0, 0⟩ ⟨0, 0, 0⟩) = [(0 : ℤ)] := by decide
  have hgit : (Policy.emptyPolicy 0).getItem (State.mk ⟨0, 0, 0⟩ ⟨0, 0, 0⟩) = 0 := rfl
  have hsweep : eval_sweep (Real.exp (-(RENT_RATE : ℝ))) 0 (Policy.emptyPolicy 0) vm
      = (Function.update vm (State.mk ⟨0, 0, 0⟩ ⟨0, 0, 0⟩)
          (DISCOUNT_RATE * vm (State.mk ⟨0, 0, 0⟩ ⟨0, 0, 0⟩)),
         max 0 |DISCOUNT_RATE * vm (State.mk ⟨0, 0, 0⟩ ⟨0, 0, 0⟩)
           - vm (State.mk ⟨0, 0, 0⟩ ⟨0, 0, 0⟩)|) := by
    simp only [eval_sweep, hstates, List.foldl_cons, List.foldl_nil,
      estimate_state_value, Policy.getItem, Policy.emptyPolicy, Option.getD_none]
    rw [estimate_action_value_zero_state]
  refine ⟨hstates, hact, ?_, ?_, hgit⟩
  · rw [hsweep]
    have h1 := h0 (State.mk ⟨0, 0, 0⟩ ⟨0, 0, 0⟩)
    have h2 := h10 (State.mk ⟨0, 0, 0⟩ ⟨0, 0, 0⟩)
    refine max_le (by norm_num) ?_
    rw [abs_le, DISCOUNT_RATE]
    constructor <;> linarith
  · exact improvement_sweep_zero _ _

/-- Witness for C7 with the constant value map `5`. -/
theorem claim_C7_capacity_zero_witness :
    state_iter 0 = [State.mk ⟨0, 0, 0⟩ ⟨0, 0, 0⟩] ∧
    action_iter (State.mk ⟨0, 0, 0⟩ ⟨0, 0, 0⟩) = [(0 : ℤ)] ∧
    (eval_sweep (Real.exp (-(RENT_RATE : ℝ))) 0 (Policy.emptyPolicy 0)
        (fun _ => 5)).2 ≤ 1 ∧
    improvement_sweep (Real.exp (-(RENT_RATE : ℝ))) 0
        (eval_sweep (Real.exp (-(RENT_RATE : ℝ))) 0 (Policy.emptyPolicy 0)
          (fun _ => 5)).1
        (Policy.emptyPolicy 0)
      = some (Policy.emptyPolicy 0, false) ∧
    (Policy.emptyPolicy 0).getItem (State.mk ⟨0, 0, 0⟩ ⟨0, 0, 0⟩) = 0 :=
  claim_C7_capacity_zero (fun _ => 5) (fun _ => by norm_num) (fun _ => by norm_num)
